import Mathlib

/-!
Verification development for the Autoflow flow engine (`src/main.ts`):
the flow-definition parser (`parseSimpleFlowDefinition`), the step executor
(`executeSearchStep`, `executeTransformStep`, `executeWriteStep`), the
embedding cache, cosine similarity, and the autorun scheduler
(`runStartupFlows`, `updateLastRunInFile`).

Modelling conventions, traced from the TypeScript source:
- JavaScript strings are modelled as `String`/`List Char`; all line and
  pattern processing is done on `List Char` with executable functions that
  mirror the JS regular expressions used by the source.
- JavaScript numbers (embedding coordinates, similarities) are modelled as
  `ℚ` with `Math.sqrt` passed in as an explicit function parameter; theorems
  that need square-root facts take them as hypotheses, which any real
  square root satisfies.
- JavaScript truthiness on optional strings (`if (step.promptFile)` and
  friends) is `truthy`: present and non-empty.
- The external providers (embedding endpoint, chat completion endpoint) are
  oracles passed in as functions; calls to the embedding endpoint and the
  cache flush (`saveEmbeddingIndex`) are recorded in an event trace.
- `Array.prototype.sort` is stable (ES2019), so sorting by the comparator
  `(a, b) => b.similarity - a.similarity` equals the lexicographic sort on
  (similarity descending, original array position ascending); the model
  sorts the position-tagged list with `List.mergeSort` on that
  lexicographic order.
-/

/-- The JS `\s` whitespace characters that can occur inside one line
(the source splits on `\r?\n` and trims each line). -/
def jsWS (c : Char) : Bool :=
  c = ' ' || c = '\t' || c = '\r' || c = '\n' || c = Char.ofNat 11 || c = Char.ofNat 12

/-- JS `String.prototype.trim` on one line. -/
def jsTrim (l : List Char) : List Char :=
  ((l.dropWhile jsWS).reverse.dropWhile jsWS).reverse

/-- Character class `[A-Za-z0-9_]` of the parser's key/value pattern. -/
def isKeyChar (c : Char) : Bool :=
  c.isAlpha || c.isDigit || c = '_'

/-- `value.replace(/^"|"$/g, '')`: drop one leading and one trailing
double-quote character, each if present. -/
def stripQuotes (l : List Char) : List Char :=
  let l1 := match l with
    | '"' :: rest => rest
    | _ => l
  match l1.getLast? with
  | some '"' => l1.dropLast
  | _ => l1

/-- The parser's key/value pattern `/^-?\s*([A-Za-z0-9_]+)\s*:\s*(.*)$/`
applied to a trimmed line: optional dash, whitespace, a non-empty key of
key characters, whitespace, a colon, whitespace, then the captured value. -/
def matchKV (l : List Char) : Option (List Char × List Char) :=
  let l1 := match l with
    | '-' :: rest => rest
    | _ => l
  let l2 := l1.dropWhile jsWS
  let key := l2.takeWhile isKeyChar
  if key.isEmpty then none
  else
    match (l2.dropWhile isKeyChar).dropWhile jsWS with
    | ':' :: v => some (key, v.dropWhile jsWS)
    | _ => none

/-- The `steps` terminator test `/^steps\s*:/` on a trimmed line. -/
def isStepsLine (l : List Char) : Bool :=
  "steps".data.isPrefixOf l && ((l.drop 5).dropWhile jsWS).head? == some ':'

/-- JS `Array.prototype.join(sep)`. -/
def jsJoin (sep : String) : List String → String
  | [] => ""
  | x :: xs => xs.foldl (fun acc y => acc ++ sep ++ y) x

/-- Scanner for JS `String.prototype.replace` with a string pattern:
replace the leftmost occurrence of `pat`, leave everything else alone. -/
def replaceFirstAux (pat rep : List Char) : List Char → List Char
  | [] => []
  | c :: cs =>
    if pat.isPrefixOf (c :: cs) then rep ++ (c :: cs).drop pat.length
    else c :: replaceFirstAux pat rep cs

/-- JS `s.replace(pat, rep)` with a **string** pattern `pat`: only the first
occurrence is replaced (an empty pattern matches at position 0). -/
def jsReplaceFirst (s pat rep : String) : String :=
  if pat = "" then rep ++ s
  else String.mk (replaceFirstAux pat.data rep.data s.data)

/-- Whether `pat` occurs as a contiguous run inside `l`. -/
def containsSeq (pat : List Char) : List Char → Bool
  | [] => pat.isEmpty
  | c :: cs => pat.isPrefixOf (c :: cs) || containsSeq pat cs

/-- A local calendar date as read off a JS `Date`
(`getFullYear`, `getMonth() + 1`, `getDate`). -/
structure LocalDate where
  year : Nat
  month : Nat
  day : Nat
deriving DecidableEq

/-- JS `String.prototype.padStart(2, '0')`. -/
def padStart2 (s : String) : String :=
  String.mk (List.replicate (2 - s.length) '0') ++ s

/-- `getLocalYYYYMMDD` from the source: `YYYY-MM-DD` with zero-padded
month and day. -/
def getLocalYYYYMMDD (d : LocalDate) : String :=
  toString d.year ++ "-" ++ padStart2 (toString d.month) ++ "-" ++ padStart2 (toString d.day)

/-- The write step's target-path resolution:
`step.targetFile.replace('\x7b\x7bdate\x7d\x7d', getLocalYYYYMMDD(new Date()))`. -/
def resolveTargetFile (targetFile : String) (today : LocalDate) : String :=
  jsReplaceFirst targetFile "\x7b\x7bdate\x7d\x7d" (getLocalYYYYMMDD today)

/-- A markdown document of the vault: path, modification time, content
(`TFile` with `stat.mtime` plus its `cachedRead` content). -/
structure VFile where
  path : String
  mtime : Nat
  content : String
deriving DecidableEq

/-- The document store: markdown files (in store-enumeration order, as
returned by `getMarkdownFiles`) and folders. -/
structure Vault where
  files : List VFile
  folders : List String
deriving DecidableEq

/-- What `getAbstractFileByPath` can resolve a path to. -/
inductive VaultEntry
  | file
  | folder
deriving DecidableEq

/-- `getAbstractFileByPath` restricted to the two kinds the source
distinguishes (`TFile` vs folder vs absent). -/
def Vault.getAbstractFileByPath (v : Vault) (p : String) : Option VaultEntry :=
  if v.files.any (fun f => f.path == p) then some .file
  else if v.folders.any (fun d => d == p) then some .folder
  else none

/-- Reading a document's content by path (`cachedRead` / `read` after a
`TFile` resolution; `none` when the path is absent or a folder). -/
def Vault.getFileContent (v : Vault) (p : String) : Option String :=
  (v.files.find? (fun f => f.path == p)).map (fun f => f.content)

/-- A parsed step is the loosely-typed record the parser builds:
a `key: value` map in insertion order (`currentStep[key] = value`). -/
abbrev Step := List (String × String)

/-- JS object property read. -/
def getKey : List (String × String) → String → Option String
  | [], _ => none
  | (k', v') :: rest, k => if k' = k then some v' else getKey rest k

/-- JS object property write: overwrite in place, else append. -/
def setKey : List (String × String) → String → String → List (String × String)
  | [], k, v => [(k, v)]
  | (k', v') :: rest, k, v =>
    if k' = k then (k, v) :: rest else (k', v') :: setKey rest k v

/-- `step.type` (`undefined` compares unequal to every step-type literal,
so a missing key is read as `""`, which also matches no step type). -/
def Step.type (st : Step) : String :=
  (getKey st "type").getD ""

/-- JS truthiness of an optional string property: present and non-empty. -/
def truthy : Option String → Bool
  | none => false
  | some s => !(s == "")

/-- The parsed `autorun` top-level value: the literal string `"true"`
becomes boolean `true`, any other present value stays a string. -/
inductive AutorunValue
  | boolTrue
  | str (s : String)
deriving DecidableEq

/-- The validated flow definition returned by the parser. -/
structure FlowDefinition where
  name : String
  description : String
  steps : List Step
  autorun : Option AutorunValue
  lastRun : Option String
deriving DecidableEq

/-- Lines of the input: split on newlines, trim each line, drop empty lines
and HTML-comment lines. -/
def nonEmptyLines (text : String) : List (List Char) :=
  ((text.data.splitOn '\n').map jsTrim).filter
    (fun l => !l.isEmpty && !("<!--".data.isPrefixOf l))

/-- Phase 1 of the parser: collect top-level `key: value` pairs until the
`steps:` line; returns the top-level map and the remaining lines. -/
def parseTopLevel : List (List Char) → List (String × String) →
    Except String (List (String × String) × List (List Char))
  | [], top => .ok (top, [])
  | l :: ls, top =>
    if isStepsLine l then .ok (top, ls)
    else
      match matchKV l with
      | none => .error ("Invalid top-level line: " ++ String.mk l)
      | some (k, v) =>
        parseTopLevel ls (setKey top (String.mk k) (String.mk (stripQuotes v)))

/-- Phase 2 of the parser: lines starting with `type` begin a new step
block; other lines are parameters of the current step. -/
def parseStepBlocks : List (List Char) → Option Step → List Step →
    Except String (List Step)
  | [], cur, acc => .ok (acc ++ cur.toList)
  | l :: ls, cur, acc =>
    if "type".data.isPrefixOf l then
      match matchKV l with
      | none => .error ("Invalid step type line: " ++ String.mk l)
      | some (_, v) =>
        parseStepBlocks ls (some [("type", String.mk (stripQuotes v))]) (acc ++ cur.toList)
    else
      match cur with
      | none => .error ("Parameter specified before step type: " ++ String.mk l)
      | some st =>
        match matchKV l with
        | none => .error ("Invalid parameter line: " ++ String.mk l)
        | some (k, v) =>
          parseStepBlocks ls (some (setKey st (String.mk k) (String.mk (stripQuotes v)))) acc

/-- The per-step validation loop: a transform step must carry exactly one
truthy prompt source, and a truthy `promptFile` must resolve to an
existing non-folder document. -/
def validateStep (vault : Vault) (st : Step) : Except String Unit :=
  if Step.type st = "transform" then
    let p := truthy (getKey st "prompt")
    let pf := truthy (getKey st "promptFile")
    if p && pf then .error "Transform step cannot have both prompt and promptFile."
    else if !p && !pf then .error "Transform step must have either prompt or promptFile."
    else if pf then
      let pfPath := (getKey st "promptFile").getD ""
      match vault.getAbstractFileByPath pfPath with
      | none => .error ("Prompt file not found: " ++ pfPath)
      | some .folder => .error ("Prompt file path is a folder: " ++ pfPath)
      | some .file => .ok ()
    else .ok ()
  else .ok ()

/-- Run `validateStep` over all steps, stopping at the first error. -/
def validateSteps (vault : Vault) : List Step → Except String Unit
  | [] => .ok ()
  | st :: rest =>
    match validateStep vault st with
    | .error e => .error e
    | .ok _ => validateSteps vault rest

/-- `parseSimpleFlowDefinition` from the source, as a total function from
the raw text and the document store to a flow definition or an error. -/
def parseSimpleFlowDefinition (text : String) (vault : Vault) :
    Except String FlowDefinition :=
  match nonEmptyLines text with
  | [] => .error "Empty flow definition."
  | first :: rest =>
    if !(first.map Char.toLower == "autoflow".data) then
      .error "Not a simple Autoflow definition."
    else
      match parseTopLevel rest [] with
      | .error e => .error e
      | .ok (topLevel, stepLines) =>
      match parseStepBlocks stepLines none [] with
      | .error e => .error e
      | .ok steps =>
      match validateSteps vault steps with
      | .error e => .error e
      | .ok _ =>
      if !(truthy (getKey topLevel "name")) || !(truthy (getKey topLevel "description")) then
        .error "Simple flow must have name and description."
      else if steps.isEmpty then
        .error "Simple flow must include at least one step."
      else
        .ok {
          name := (getKey topLevel "name").getD ""
          description := (getKey topLevel "description").getD ""
          steps := steps
          autorun := (getKey topLevel "autorun").map
            (fun v => if v = "true" then .boolTrue else .str v)
          lastRun := getKey topLevel "lastRun" }

/-- The dot product loop `vecA.reduce((acc, val, i) => acc + val * vecB[i], 0)`
(reached only when the lengths are equal, where indexing equals zipping). -/
def dotProduct (a b : List ℚ) : ℚ :=
  (a.zip b).foldl (fun acc p => acc + p.1 * p.2) 0

/-- `vec.reduce((acc, val) => acc + val * val, 0)`. -/
def sumSquares (v : List ℚ) : ℚ :=
  v.foldl (fun acc x => acc + x * x) 0

/-- A vector's magnitude as the source computes it: `Math.sqrt` of the sum
of squares, with the square root supplied as a function parameter. -/
def magnitude (sqrt : ℚ → ℚ) (v : List ℚ) : ℚ :=
  sqrt (sumSquares v)

/-- `cosineSimilarity` from the source: `-1` on mismatched lengths, `0`
when either magnitude is zero, else the normalized dot product. -/
def cosineSimilarity (sqrt : ℚ → ℚ) (vecA vecB : List ℚ) : ℚ :=
  if vecA.length ≠ vecB.length then -1
  else
    let dot := dotProduct vecA vecB
    let magA := magnitude sqrt vecA
    let magB := magnitude sqrt vecB
    if magA = 0 ∨ magB = 0 then 0
    else dot / (magA * magB)

/-- One entry of the persisted embedding index:
`{ embedding: number[]; mtime: number }`. -/
structure IndexEntry where
  embedding : List ℚ
  mtime : Nat
deriving DecidableEq

/-- The embedding index `EmbeddingIndex`, keyed by file path. -/
abbrev EmbeddingIndex := List (String × IndexEntry)

/-- `this.embeddingIndex[path]` read. -/
def lookupIndex : EmbeddingIndex → String → Option IndexEntry
  | [], _ => none
  | (p', e) :: rest, p => if p' = p then some e else lookupIndex rest p

/-- `this.embeddingIndex[path] = entry` write. -/
def setIndex : EmbeddingIndex → String → IndexEntry → EmbeddingIndex
  | [], p, e => [(p, e)]
  | (p', e') :: rest, p, e =>
    if p' = p then (p, e) :: rest else (p', e') :: setIndex rest p e

/-- Observable external effects of a search step: a call to the embedding
provider (`getEmbedding`), and a flush of the cache to durable storage
(`saveEmbeddingIndex`). -/
inductive SearchEvent
  | embedCall (text : String)
  | flush
deriving DecidableEq

/-- The body of the per-candidate loop of `executeSearchStep`: reuse the
cached vector when the cached `mtime` equals the file's current `mtime`,
otherwise call the embedding provider on the file's content and overwrite
the cache entry.  Returns the vector used, the updated index, and the
provider calls made. -/
def processFile (emb : String → List ℚ) (index : EmbeddingIndex) (f : VFile) :
    List ℚ × EmbeddingIndex × List SearchEvent :=
  match lookupIndex index f.path with
  | some e =>
    if e.mtime = f.mtime then (e.embedding, index, [])
    else
      let v := emb f.content
      (v, setIndex index f.path ⟨v, f.mtime⟩, [.embedCall f.content])
  | none =>
    let v := emb f.content
    (v, setIndex index f.path ⟨v, f.mtime⟩, [.embedCall f.content])

/-- The whole per-candidate loop: similarity of the query embedding against
each candidate's vector, threading the cache left to right. -/
def searchLoop (emb : String → List ℚ) (sqrt : ℚ → ℚ) (queryEmbedding : List ℚ) :
    List VFile → EmbeddingIndex → List (VFile × ℚ) × EmbeddingIndex × List SearchEvent
  | [], index => ([], index, [])
  | f :: fs, index =>
    let r := processFile emb index f
    let sim := cosineSimilarity sqrt queryEmbedding r.1
    let rest := searchLoop emb sqrt queryEmbedding fs r.2.1
    ((f, sim) :: rest.1, rest.2.1, r.2.2 ++ rest.2.2)

/-- The JS comparator `(a, b) => b.similarity - a.similarity` under a stable
sort, expressed on position-tagged records: earlier means strictly larger
similarity, or equal similarity and smaller original position. -/
def descBySimilarity (a b : Nat × (VFile × ℚ)) : Bool :=
  decide (b.2.2 < a.2.2 ∨ (a.2.2 = b.2.2 ∧ a.1 ≤ b.1))

/-- `fileEmbeddings.sort((a, b) => b.similarity - a.similarity)` — a stable
sort, modelled as the lexicographic merge sort over position-tagged
records. -/
def sortBySimilarityDesc (l : List (VFile × ℚ)) : List (VFile × ℚ) :=
  (l.enum.mergeSort descBySimilarity).map Prod.snd

/-- What a search step stores and its effects: the context values
(`searchResults`, `searchResultsFiles`), the updated cache, and the event
trace. -/
structure SearchOutput where
  searchResults : List String
  searchResultsFiles : List VFile
  index : EmbeddingIndex
  events : List SearchEvent
deriving DecidableEq

/-- `executeSearchStep` from the source.  Candidates are the markdown files
whose path starts with `sourceFolder` (a missing `sourceFolder` coerces to
the string `"undefined"` inside JS `startsWith`).  Without a truthy query:
all candidates' contents, unranked.  With a query: embed the query, run the
cache loop, flush the cache once, stable-sort by descending similarity,
take the top 10, read those contents in ranked order (`Promise.all`
preserves positional order). -/
def executeSearchStep (emb : String → List ℚ) (sqrt : ℚ → ℚ)
    (mdFiles : List VFile) (index : EmbeddingIndex) (step : Step) : SearchOutput :=
  let sourceFolder := (getKey step "sourceFolder").getD "undefined"
  let files := mdFiles.filter (fun f => sourceFolder.data.isPrefixOf f.path.data)
  let query := getKey step "query"
  if !(truthy query) then
    { searchResults := files.map (fun f => f.content)
      searchResultsFiles := files
      index := index
      events := [] }
  else
    let q := query.getD ""
    let queryEmbedding := emb q
    let r := searchLoop emb sqrt queryEmbedding files index
    let ranked := sortBySimilarityDesc r.1
    let topFiles := (ranked.take 10).map Prod.fst
    { searchResults := topFiles.map (fun f => f.content)
      searchResultsFiles := topFiles
      index := r.2.1
      events := SearchEvent.embedCall q :: r.2.2 ++ [SearchEvent.flush] }

/-- The per-run shared context (`Record<string, unknown>` with the three
keys the steps use). -/
structure Context where
  searchResults : Option (List String)
  searchResultsFiles : Option (List VFile)
  transformResult : Option String
deriving DecidableEq

/-- JS `String.prototype.substring(0, n)` (modulo the code-unit vs
character distinction, irrelevant here). -/
def jsSubstringTo (s : String) (n : Nat) : String :=
  String.mk (s.data.take n)

/-- `executeTransformStep` from the source.  Soft no-op when there is no
source content; otherwise join, truncate to 8000 characters, build the
final prompt from `promptFile` (throwing when it no longer resolves to a
document) or from `prompt` (JS interpolates a missing `prompt` as the
string `"undefined"`), call the completion provider, and store a truthy
result in `transformResult`.  The provider oracle returns an error for a
thrown API call, else the optional message content. -/
def executeTransformStep (complete : String → Except Unit (Option String))
    (vault : Vault) (step : Step) (ctx : Context) : Except Unit Context :=
  let sourceContent := ctx.searchResults.getD []
  if sourceContent.isEmpty then .ok ctx
  else
    let truncatedContent := jsSubstringTo (jsJoin "\n\n" sourceContent) 8000
    let finalPrompt :=
      if truthy (getKey step "promptFile") then
        match vault.getFileContent ((getKey step "promptFile").getD "") with
        | some promptContent => Except.ok (promptContent ++ "\n\n---\n\n" ++ truncatedContent)
        | none => Except.error ()
      else
        Except.ok (((getKey step "prompt").getD "undefined") ++ "\n\n---\n\n" ++ truncatedContent)
    match finalPrompt with
    | .error e => .error e
    | .ok prompt =>
      match complete prompt with
      | .error e => .error e
      | .ok result =>
        if truthy result then .ok { ctx with transformResult := result }
        else .ok ctx

/-- `targetFile.lastIndexOf('/')` scanner. -/
def lastSlashIndexAux (i : Nat) (acc : Option Nat) : List Char → Option Nat
  | [] => acc
  | c :: cs => lastSlashIndexAux (i + 1) (if c = '/' then some i else acc) cs

/-- `targetFile.substring(0, targetFile.lastIndexOf('/'))` — the parent
directory path, `""` when there is no slash (`substring(0, -1)`). -/
def jsDirname (s : String) : String :=
  match lastSlashIndexAux 0 none s.data with
  | none => ""
  | some i => String.mk (s.data.take i)

/-- `vault.adapter.append`: append to the file's content, creating the file
when absent; the host filesystem stamps the new modification time. -/
def Vault.adapterAppend (v : Vault) (mt : Nat) (p s : String) : Vault :=
  if v.files.any (fun f => f.path == p) then
    { v with files := v.files.map fun f =>
        if f.path == p then { f with content := f.content ++ s, mtime := mt } else f }
  else { v with files := v.files ++ [⟨p, mt, s⟩] }

/-- `vault.create`: a fresh document at the end of the store enumeration. -/
def Vault.createFile (v : Vault) (mt : Nat) (p s : String) : Vault :=
  { v with files := v.files ++ [⟨p, mt, s⟩] }

/-- `vault.createFolder`. -/
def Vault.createFolder (v : Vault) (p : String) : Vault :=
  { v with folders := v.folders ++ [p] }

/-- `executeWriteStep` from the source: no-op on a falsy `transformResult`;
otherwise resolve the target path, ensure the parent directory exists,
then append (preceded by two newlines) to an existing target or create it
fresh.  A missing `targetFile` throws (JS `undefined.replace`). -/
def executeWriteStep (vault : Vault) (writeMtime : Nat) (step : Step)
    (ctx : Context) (today : LocalDate) : Except Unit Vault :=
  match ctx.transformResult with
  | none => .ok vault
  | some c =>
    if c = "" then .ok vault
    else
      match getKey step "targetFile" with
      | none => .error ()
      | some tf =>
        let targetFile := resolveTargetFile tf today
        let directoryPath := jsDirname targetFile
        let vault1 :=
          if directoryPath ≠ "" ∧ vault.getAbstractFileByPath directoryPath = none
          then vault.createFolder directoryPath else vault
        match vault1.getAbstractFileByPath targetFile with
        | some _ => .ok (vault1.adapterAppend writeMtime targetFile ("\n\n" ++ c))
        | none => .ok (vault1.createFile writeMtime targetFile c)

/-- The state threaded through one flow run: the shared context, the
document store, the embedding cache, and the accumulated event trace. -/
structure ExecState where
  ctx : Context
  vault : Vault
  index : EmbeddingIndex
  events : List SearchEvent
deriving DecidableEq

/-- The ambient collaborators of a run: the two providers, the host clock's
modification stamp for writes, and today's local date. -/
structure Env where
  emb : String → List ℚ
  sqrtFn : ℚ → ℚ
  complete : String → Except Unit (Option String)
  writeMtime : Nat
  today : LocalDate

/-- The step dispatcher (the `switch` of `runSteps`): search, transform and
write are interpreted; any other step type matches no case and is a
no-op. -/
def runStep (env : Env) (s : ExecState) (step : Step) : Except Unit ExecState :=
  match Step.type step with
  | "search" =>
    let o := executeSearchStep env.emb env.sqrtFn s.vault.files s.index step
    .ok { s with
      ctx := { s.ctx with
        searchResults := some o.searchResults
        searchResultsFiles := some o.searchResultsFiles }
      index := o.index
      events := s.events ++ o.events }
  | "transform" =>
    (executeTransformStep env.complete s.vault step s.ctx).map
      (fun ctx => { s with ctx := ctx })
  | "write" =>
    (executeWriteStep s.vault env.writeMtime step s.ctx env.today).map
      (fun v => { s with vault := v })
  | _ => .ok s

/-- The step loop of `runSteps`: strictly sequential, aborting at the first
failing step (documents already written by earlier steps remain). -/
def runStepsList (env : Env) : ExecState → List Step → ExecState × Bool
  | s, [] => (s, true)
  | s, step :: rest =>
    match runStep env s step with
    | .ok s1 => runStepsList env s1 rest
    | .error _ => (s, false)

/-- JS truthiness of the parsed `autorun` field. -/
def autorunTruthy : Option AutorunValue → Bool
  | none => false
  | some .boolTrue => true
  | some (.str s) => !(s == "")

/-- `updateLastRunInFile`'s content rewrite: replace the first line
matching `/^lastRun:\s*.*$/m`, else insert `lastRun: <date>` immediately
before the first line matching `/^(steps:.*)$/m`, else leave the content
unchanged. -/
def replaceFirstLine (p : String → Bool) (f : String → List String) :
    List String → List String
  | [] => []
  | l :: ls => if p l then f l ++ ls else l :: replaceFirstLine p f ls

/-- Does a raw (untrimmed) line match `/^lastRun:\s*.*$/`? -/
def isLastRunLine (l : String) : Bool :=
  "lastRun:".data.isPrefixOf l.data

/-- Does a raw (untrimmed) line match `/^(steps:.*)$/`? -/
def isStepsMarkerLine (l : String) : Bool :=
  "steps:".data.isPrefixOf l.data

/-- The new-content computation of `updateLastRunInFile`. -/
def updateLastRunContent (content newDate : String) : String :=
  let lines := (content.data.splitOn '\n').map String.mk
  let newLastRun := "lastRun: " ++ newDate
  if lines.any isLastRunLine then
    jsJoin "\n" (replaceFirstLine isLastRunLine (fun _ => [newLastRun]) lines)
  else if lines.any isStepsMarkerLine then
    jsJoin "\n" (replaceFirstLine isStepsMarkerLine (fun l => [newLastRun, l]) lines)
  else content

/-- `updateLastRunInFile` from the source: silently returns when the path
does not resolve to a document; otherwise rewrites the content. -/
def updateLastRunInFile (v : Vault) (mt : Nat) (filePath newDate : String) : Vault :=
  match v.getFileContent filePath with
  | none => v
  | some content =>
    { v with files := v.files.map fun f =>
        if f.path == filePath
        then { f with content := updateLastRunContent content newDate, mtime := mt }
        else f }

/-- The observable outcome of `runSteps`: the final state, whether all
steps succeeded, and the possibly-extended autorun registry. -/
structure RunOutcome where
  state : ExecState
  success : Bool
  autorunFlows : List String
deriving DecidableEq

/-- `runSteps` from the source: register a manually-run autorun flow once;
run the steps in order; on full success of a scheduled (autorun) run,
rewrite the flow document's `lastRun` marker to today's date. -/
def runSteps (env : Env) (vault : Vault) (index : EmbeddingIndex)
    (autorunFlows : List String) (definition : FlowDefinition)
    (filePath : Option String) (isAutorun : Bool) : RunOutcome :=
  let autorunFlows1 :=
    match filePath with
    | some p =>
      if autorunTruthy definition.autorun && !isAutorun && !(autorunFlows.contains p)
      then autorunFlows ++ [p] else autorunFlows
    | none => autorunFlows
  let s0 : ExecState := { ctx := ⟨none, none, none⟩, vault := vault, index := index, events := [] }
  let r := runStepsList env s0 definition.steps
  let vault2 :=
    if r.2 then
      match filePath, isAutorun with
      | some p, true =>
        updateLastRunInFile r.1.vault env.writeMtime p (getLocalYYYYMMDD env.today)
      | _, _ => r.1.vault
    else r.1.vault
  { state := { r.1 with vault := vault2 }, success := r.2, autorunFlows := autorunFlows1 }

/-- The evolving state of the startup scan, plus the trace of the flows
that were actually executed. -/
structure StartupState where
  vault : Vault
  index : EmbeddingIndex
  autorunFlows : List String
  ran : List String
deriving DecidableEq

/-- One iteration of `runStartupFlows`' loop over a registered path: skip a
missing or folder path, skip on parse failure, skip when `lastRun` equals
today, run when `autorun` is `'daily'` or `true` (a failed run is caught
and does not stop the scan). -/
def processAutorunFlow (env : Env) (s : StartupState) (path : String) : StartupState :=
  match s.vault.getFileContent path with
  | none => s
  | some content =>
    match parseSimpleFlowDefinition content s.vault with
    | .error _ => s
    | .ok definition =>
      if definition.lastRun = some (getLocalYYYYMMDD env.today) then s
      else if definition.autorun = some (.str "daily") || definition.autorun = some .boolTrue then
        let o := runSteps env s.vault s.index s.autorunFlows definition (some path) true
        { vault := o.state.vault
          index := o.state.index
          autorunFlows := o.autorunFlows
          ran := s.ran ++ [path] }
      else s

/-- `runStartupFlows` from the source: fold the per-path handler over the
registered autorun paths. -/
def runStartupFlows (env : Env) (vault : Vault) (index : EmbeddingIndex)
    (autorunFlows : List String) : StartupState :=
  autorunFlows.foldl (processAutorunFlow env) ⟨vault, index, autorunFlows, []⟩

theorem foldl_add_sq (v : List ℚ) (c : ℚ) :
    v.foldl (fun acc x => acc + x * x) c = c + sumSquares v := by
  induction v generalizing c with
  | nil => simp [sumSquares]
  | cons x xs ih =>
    simp only [sumSquares, List.foldl_cons] at *
    rw [ih (c + x * x), ih (0 + x * x)]
    ring

theorem sumSquares_cons (x : ℚ) (xs : List ℚ) :
    sumSquares (x :: xs) = x * x + sumSquares xs := by
  have h : sumSquares (x :: xs) = xs.foldl (fun acc y => acc + y * y) (0 + x * x) := rfl
  rw [h, foldl_add_sq, zero_add]

theorem foldl_add_dot (l : List (ℚ × ℚ)) (c : ℚ) :
    l.foldl (fun acc p => acc + p.1 * p.2) c = c + l.foldl (fun acc p => acc + p.1 * p.2) 0 := by
  induction l generalizing c with
  | nil => simp
  | cons p ps ih =>
    simp only [List.foldl_cons]
    rw [ih (c + p.1 * p.2), ih (0 + p.1 * p.2)]
    ring

theorem dotProduct_cons (x y : ℚ) (xs ys : List ℚ) :
    dotProduct (x :: xs) (y :: ys) = x * y + dotProduct xs ys := by
  have h : dotProduct (x :: xs) (y :: ys)
      = (xs.zip ys).foldl (fun acc p => acc + p.1 * p.2) (0 + x * y) := rfl
  rw [h, foldl_add_dot, zero_add]
  rfl

theorem dotProduct_comm (a b : List ℚ) : dotProduct a b = dotProduct b a := by
  induction a generalizing b with
  | nil => cases b <;> rfl
  | cons x xs ih =>
    cases b with
    | nil => rfl
    | cons y ys => rw [dotProduct_cons, dotProduct_cons, ih, mul_comm]

theorem dotProduct_self (a : List ℚ) : dotProduct a a = sumSquares a := by
  induction a with
  | nil => rfl
  | cons x xs ih => rw [dotProduct_cons, sumSquares_cons, ih]

theorem sumSquares_nonneg (v : List ℚ) : 0 ≤ sumSquares v := by
  induction v with
  | nil => simp [sumSquares]
  | cons x xs ih =>
    rw [sumSquares_cons]
    have := mul_self_nonneg x
    linarith

theorem sumSquares_pos (v : List ℚ) (x : ℚ) (hx : x ∈ v) (hxne : x ≠ 0) :
    0 < sumSquares v := by
  induction v with
  | nil => cases hx
  | cons y ys ih =>
    rw [sumSquares_cons]
    rcases List.mem_cons.mp hx with h | h
    · subst h
      exact add_pos_of_pos_of_nonneg (mul_self_pos.mpr hxne) (sumSquares_nonneg ys)
    · exact add_pos_of_nonneg_of_pos (mul_self_nonneg y) (ih h)

/-- C8: `cosineSimilarity` returns `-1` for every pair of vectors of
differing lengths, and `0` for equal-length vectors when either vector's
magnitude (the square root of its sum of squares, as the code computes it)
is zero. -/
theorem cosineSimilarity_edge_cases_c8 :
    (∀ (sqrt : ℚ → ℚ) (a b : List ℚ), a.length ≠ b.length →
      cosineSimilarity sqrt a b = -1) ∧
    (∀ (sqrt : ℚ → ℚ) (a b : List ℚ), a.length = b.length →
      magnitude sqrt a = 0 ∨ magnitude sqrt b = 0 →
      cosineSimilarity sqrt a b = 0) := by
  constructor
  · intro sqrt a b h
    simp [cosineSimilarity, h]
  · intro sqrt a b h hm
    simp [cosineSimilarity, h, hm]

/-- Witness for C8 at concrete inputs. -/
theorem cosineSimilarity_edge_cases_c8_witness :
    cosineSimilarity (fun _ => 0) [1] [] = -1 ∧
    cosineSimilarity (fun _ => 0) [(1 : ℚ)] [2] = 0 :=
  ⟨cosineSimilarity_edge_cases_c8.1 (fun _ => 0) [1] [] (by decide),
   cosineSimilarity_edge_cases_c8.2 (fun _ => 0) [(1 : ℚ)] [2] rfl (Or.inl rfl)⟩

/-- C9: `cosineSimilarity` is symmetric for every square-root function and
every pair of vectors; and for a non-zero vector `a`, when the square root
behaves as a real square root on `a`'s sum of squares
(`sqrt s * sqrt s = s`), the self-similarity is exactly `1`. -/
theorem cosineSimilarity_symm_self_c9 :
    (∀ (sqrt : ℚ → ℚ) (a b : List ℚ),
      cosineSimilarity sqrt a b = cosineSimilarity sqrt b a) ∧
    (∀ (sqrt : ℚ → ℚ) (a : List ℚ), (∃ x ∈ a, x ≠ 0) →
      sqrt (sumSquares a) * sqrt (sumSquares a) = sumSquares a →
      cosineSimilarity sqrt a a = 1) := by
  constructor
  · intro sqrt a b
    by_cases h : a.length = b.length
    · simp only [cosineSimilarity, h, ne_eq, not_true_eq_false, if_false,
        dotProduct_comm a b]
      exact if_congr or_comm rfl (by rw [mul_comm])
    · have h2 : ¬ b.length = a.length := fun e => h e.symm
      simp [cosineSimilarity, h, h2]
  · intro sqrt a hnz hs
    obtain ⟨x, hx, hxne⟩ := hnz
    have hpos : 0 < sumSquares a := sumSquares_pos a x hx hxne
    have hm : magnitude sqrt a ≠ 0 := by
      intro h0
      rw [magnitude] at h0
      rw [h0, zero_mul] at hs
      exact absurd hs.symm (ne_of_gt hpos)
    simp only [cosineSimilarity, ne_eq, not_true_eq_false, if_false]
    rw [if_neg (by push_neg; exact ⟨hm, hm⟩)]
    rw [dotProduct_self]
    show sumSquares a / (sqrt (sumSquares a) * sqrt (sumSquares a)) = 1
    rw [hs]
    exact div_self (ne_of_gt hpos)

/-- Witness for C9 at concrete inputs: the vector `[3, 4]` with a square
root that is exact at `25`. -/
theorem cosineSimilarity_symm_self_c9_witness :
    cosineSimilarity (fun x => if x = 25 then 5 else 0) [3, 4] [5, 6]
      = cosineSimilarity (fun x => if x = 25 then 5 else 0) [5, 6] [3, 4] ∧
    cosineSimilarity (fun x => if x = 25 then 5 else 0) [3, 4] [3, 4] = 1 := by
  have h25 : sumSquares [(3 : ℚ), 4] = 25 := by
    rw [sumSquares_cons, sumSquares_cons]
    norm_num [sumSquares]
  refine ⟨cosineSimilarity_symm_self_c9.1 _ [3, 4] [5, 6], ?_⟩
  refine cosineSimilarity_symm_self_c9.2 _ [3, 4] ⟨3, by simp, by norm_num⟩ ?_
  rw [h25]
  norm_num

theorem isPrefixOf_true_iff (l t : List Char) : l.isPrefixOf t = true ↔ l <+: t :=
  List.isPrefixOf_iff_prefix

theorem isPrefixOf_append_self (l t : List Char) : l.isPrefixOf (l ++ t) = true :=
  (isPrefixOf_true_iff l (l ++ t)).mpr ⟨t, rfl⟩

theorem containsSeq_iff (pat l : List Char) :
    containsSeq pat l = true ↔ ∃ p s, l = p ++ pat ++ s := by
  induction l with
  | nil =>
    simp only [containsSeq, List.isEmpty_iff]
    constructor
    · rintro rfl
      exact ⟨[], [], rfl⟩
    · rintro ⟨p, s, h⟩
      exact (List.append_eq_nil.mp (List.append_eq_nil.mp h.symm).1).2
  | cons c cs ih =>
    simp only [containsSeq, Bool.or_eq_true, ih]
    constructor
    · rintro (h | ⟨p, s, rfl⟩)
      · obtain ⟨s, hs⟩ := (isPrefixOf_true_iff _ _).mp h
        exact ⟨[], s, by simpa using hs.symm⟩
      · exact ⟨c :: p, s, rfl⟩
    · rintro ⟨p, s, h⟩
      cases p with
      | nil =>
        left
        exact (isPrefixOf_true_iff _ _).mpr ⟨s, by simpa using h.symm⟩
      | cons c0 p' =>
        right
        have h' : c :: cs = c0 :: (p' ++ (pat ++ s)) := by simpa using h
        refine ⟨p', s, ?_⟩
        have := (List.cons_eq_cons.mp h').2
        simpa [List.append_assoc] using this

theorem replaceFirstAux_no_occurrence (pat rep l : List Char)
    (H : containsSeq pat l = false) : replaceFirstAux pat rep l = l := by
  induction l with
  | nil => rfl
  | cons c cs ih =>
    simp only [containsSeq, Bool.or_eq_false_iff] at H
    simp [replaceFirstAux, H.1, ih H.2]

theorem replaceFirstAux_leftmost (pat rep pre suf : List Char) (hpat : pat ≠ [])
    (H : containsSeq pat ((pre ++ pat ++ suf).take (pre.length + (pat.length - 1))) = false) :
    replaceFirstAux pat rep (pre ++ pat ++ suf) = pre ++ rep ++ suf := by
  induction pre with
  | nil =>
    cases pat with
    | nil => exact absurd rfl hpat
    | cons p0 pt =>
      have hpfx : (p0 :: pt).isPrefixOf (p0 :: (pt ++ suf)) = true := by
        have h0 := isPrefixOf_append_self (p0 :: pt) suf
        rwa [List.cons_append] at h0
      have hdrop : List.drop (p0 :: pt).length (p0 :: (pt ++ suf)) = suf := by
        have h0 := List.drop_left (p0 :: pt) suf
        rwa [List.cons_append] at h0
      show replaceFirstAux (p0 :: pt) rep (p0 :: (pt ++ suf)) = rep ++ suf
      simp [replaceFirstAux, hpfx, hdrop]
  | cons c pre' ih =>
    have hlen : 1 ≤ pat.length := List.length_pos.mpr hpat
    have e1 : (c :: pre') ++ pat ++ suf = c :: (pre' ++ pat ++ suf) := by simp
    have e2 : (c :: pre').length + (pat.length - 1) = (pre'.length + (pat.length - 1)) + 1 := by
      simp only [List.length_cons]
      omega
    rw [e1, e2, List.take_succ_cons] at H
    simp only [containsSeq, Bool.or_eq_false_iff] at H
    have hnp : pat.isPrefixOf (c :: (pre' ++ pat ++ suf)) = false := by
      rcases hb : pat.isPrefixOf (c :: (pre' ++ pat ++ suf)) with _ | _
      · rfl
      · exfalso
        have hp : pat <+: c :: (pre' ++ pat ++ suf) := (isPrefixOf_true_iff _ _).mp hb
        have hlen2 : pat.length ≤ (pre'.length + (pat.length - 1)) + 1 := by omega
        have hp2 : pat <+: (c :: (pre' ++ pat ++ suf)).take ((pre'.length + (pat.length - 1)) + 1) :=
          List.prefix_take_iff.mpr ⟨hp, hlen2⟩
        rw [List.take_succ_cons] at hp2
        have := (isPrefixOf_true_iff _ _).mpr hp2
        rw [H.1] at this
        cases this
    rw [e1]
    show replaceFirstAux pat rep (c :: (pre' ++ pat ++ suf)) = (c :: pre') ++ rep ++ suf
    have eqn : replaceFirstAux pat rep (c :: (pre' ++ pat ++ suf))
        = if pat.isPrefixOf (c :: (pre' ++ pat ++ suf)) then
            rep ++ (c :: (pre' ++ pat ++ suf)).drop pat.length
          else c :: replaceFirstAux pat rep (pre' ++ pat ++ suf) := rfl
    rw [eqn, hnp]
    simp only [Bool.false_eq_true, if_false]
    rw [ih H.2]
    simp

/-- C4 counterexample: with two occurrences of the date token in
`targetFile`, the resolved path keeps the second occurrence verbatim —
the source replaces only the first (JS string-pattern `replace`). -/
theorem date_token_counterexample_c4 :
    resolveTargetFile "N-\x7b\x7bdate\x7d\x7d-\x7b\x7bdate\x7d\x7d.md" ⟨2025, 1, 2⟩
      = "N-2025-01-02-\x7b\x7bdate\x7d\x7d.md" ∧
    resolveTargetFile "N-\x7b\x7bdate\x7d\x7d-\x7b\x7bdate\x7d\x7d.md" ⟨2025, 1, 2⟩
      ≠ "N-2025-01-02-2025-01-02.md" := by
  constructor
  · rfl
  · decide

/-- C4 (amended): the **first** occurrence of the date token in
`targetFile` is replaced with today's local date in `YYYY-MM-DD` form and
the surrounding text (including any later occurrences) is unaltered; a
target path without the token is unchanged.  The second conjunct's
hypothesis says the written occurrence is the leftmost one. -/
theorem date_token_first_occurrence_c4 :
    (∀ (t : String) (d : LocalDate),
      containsSeq "\x7b\x7bdate\x7d\x7d".data t.data = false →
      resolveTargetFile t d = t) ∧
    (∀ (pre suf : List Char) (d : LocalDate),
      containsSeq "\x7b\x7bdate\x7d\x7d".data
        ((pre ++ "\x7b\x7bdate\x7d\x7d".data ++ suf).take (pre.length + 7)) = false →
      (resolveTargetFile (String.mk (pre ++ "\x7b\x7bdate\x7d\x7d".data ++ suf)) d).data
        = pre ++ (getLocalYYYYMMDD d).data ++ suf) := by
  constructor
  · intro t d H
    show jsReplaceFirst t "\x7b\x7bdate\x7d\x7d" (getLocalYYYYMMDD d) = t
    rw [jsReplaceFirst, if_neg (by decide)]
    rw [replaceFirstAux_no_occurrence _ _ _ H]
  · intro pre suf d H
    show (jsReplaceFirst (String.mk (pre ++ "\x7b\x7bdate\x7d\x7d".data ++ suf))
        "\x7b\x7bdate\x7d\x7d" (getLocalYYYYMMDD d)).data = _
    rw [jsReplaceFirst, if_neg (by decide)]
    have h7 : (7 : Nat) = "\x7b\x7bdate\x7d\x7d".data.length - 1 := by decide
    rw [h7] at H
    exact replaceFirstAux_leftmost "\x7b\x7bdate\x7d\x7d".data (getLocalYYYYMMDD d).data
      pre suf (by decide) H

/-- Witness for C4 at concrete inputs. -/
theorem date_token_first_occurrence_c4_witness :
    resolveTargetFile "Reports/Summary.md" ⟨2025, 10, 11⟩ = "Reports/Summary.md" ∧
    (resolveTargetFile
        (String.mk ("Reports/S-".data ++ "\x7b\x7bdate\x7d\x7d".data ++ ".md".data))
        ⟨2025, 10, 11⟩).data
      = "Reports/S-".data ++ (getLocalYYYYMMDD ⟨2025, 10, 11⟩).data ++ ".md".data :=
  ⟨date_token_first_occurrence_c4.1 "Reports/Summary.md" ⟨2025, 10, 11⟩ (by decide),
   date_token_first_occurrence_c4.2 "Reports/S-".data ".md".data ⟨2025, 10, 11⟩ (by decide)⟩

/-- C3 counterexample: an input that starts with an HTML comment — hence
does not start with `autoflow` — parses successfully, because blank and
comment lines are skipped before the header check. -/
theorem parser_header_counterexample_c3 :
    "autoflow".data.isPrefixOf
      "<!-- note -->\nautoflow\nname: A\ndescription: B\nsteps:\ntype: write\n- targetFile: out.md".data
      = false ∧
    parseSimpleFlowDefinition
      "<!-- note -->\nautoflow\nname: A\ndescription: B\nsteps:\ntype: write\n- targetFile: out.md"
      ⟨[], []⟩
      = .ok ⟨"A", "B", [[("type", "write"), ("targetFile", "out.md")]], none, none⟩ := by
  constructor
  · decide
  · rfl

/-- C3 (amended): whenever the input has at least one non-empty,
non-comment trimmed line and the first such line differs from `autoflow`
case-insensitively, parsing yields the "not a flow definition" error. -/
theorem parser_header_rejects_c3 (text : String) (vault : Vault)
    (first : List Char) (rest : List (List Char))
    (hne : nonEmptyLines text = first :: rest)
    (hhdr : first.map Char.toLower ≠ "autoflow".data) :
    parseSimpleFlowDefinition text vault = .error "Not a simple Autoflow definition." := by
  simp only [parseSimpleFlowDefinition, hne]
  simp [hhdr]

/-- Witness for C3 (amended) at a concrete input. -/
theorem parser_header_rejects_c3_witness :
    parseSimpleFlowDefinition "hello\nworld" ⟨[], []⟩
      = .error "Not a simple Autoflow definition." :=
  parser_header_rejects_c3 "hello\nworld" ⟨[], []⟩ "hello".data ["world".data]
    (by decide) (by decide)

/-- C10: a step whose type is none of search/transform/write is a no-op in
the dispatcher (no error, state unchanged), the step loop just continues
past it, per-step validation never rejects a non-transform step, and a
concrete flow with a `type: archive` step parses successfully with that
step included. -/
theorem unknown_step_type_c10 :
    (∀ (env : Env) (s : ExecState) (step : Step),
      Step.type step ≠ "search" → Step.type step ≠ "transform" → Step.type step ≠ "write" →
      runStep env s step = .ok s) ∧
    (∀ (env : Env) (s : ExecState) (step : Step) (rest : List Step),
      Step.type step ≠ "search" → Step.type step ≠ "transform" → Step.type step ≠ "write" →
      runStepsList env s (step :: rest) = runStepsList env s rest) ∧
    (∀ (vault : Vault) (steps : List Step),
      (∀ st ∈ steps, Step.type st ≠ "transform") → validateSteps vault steps = .ok ()) ∧
    parseSimpleFlowDefinition "autoflow\nname: A\ndescription: B\nsteps:\ntype: archive" ⟨[], []⟩
      = .ok ⟨"A", "B", [[("type", "archive")]], none, none⟩ := by
  have ha : ∀ (env : Env) (s : ExecState) (step : Step),
      Step.type step ≠ "search" → Step.type step ≠ "transform" → Step.type step ≠ "write" →
      runStep env s step = .ok s := by
    intro env s step h1 h2 h3
    unfold runStep
    split
    · exact absurd (by assumption) h1
    · exact absurd (by assumption) h2
    · exact absurd (by assumption) h3
    · rfl
  refine ⟨ha, ?_, ?_, ?_⟩
  · intro env s step rest h1 h2 h3
    show (match runStep env s step with
      | .ok s1 => runStepsList env s1 rest
      | .error _ => (s, false)) = runStepsList env s rest
    rw [ha env s step h1 h2 h3]
  · intro vault steps h
    induction steps with
    | nil => rfl
    | cons st rest ih =>
      have hst : validateStep vault st = .ok () := by
        rw [validateStep, if_neg (h st (List.mem_cons_self st rest))]
      simp only [validateSteps, hst]
      exact ih (fun st' h' => h st' (List.mem_cons_of_mem st h'))
  · rfl

/-- Witness for C10 at concrete inputs. -/
theorem unknown_step_type_c10_witness :
    runStep ⟨fun _ => [], fun _ => 0, fun _ => .ok none, 0, ⟨2025, 10, 11⟩⟩
        ⟨⟨none, none, none⟩, ⟨[], []⟩, [], []⟩ [("type", "archive")]
      = .ok ⟨⟨none, none, none⟩, ⟨[], []⟩, [], []⟩ ∧
    runStepsList ⟨fun _ => [], fun _ => 0, fun _ => .ok none, 0, ⟨2025, 10, 11⟩⟩
        ⟨⟨none, none, none⟩, ⟨[], []⟩, [], []⟩ [[("type", "archive")]]
      = runStepsList ⟨fun _ => [], fun _ => 0, fun _ => .ok none, 0, ⟨2025, 10, 11⟩⟩
        ⟨⟨none, none, none⟩, ⟨[], []⟩, [], []⟩ [] ∧
    validateSteps ⟨[], []⟩ [[("type", "archive")]] = .ok () :=
  ⟨unknown_step_type_c10.1 _ _ _ (by decide) (by decide) (by decide),
   unknown_step_type_c10.2.1 _ _ _ [] (by decide) (by decide) (by decide),
   unknown_step_type_c10.2.2.1 ⟨[], []⟩ _
     (by intro st h; simp at h; subst h; decide)⟩

/-- When the validation loop succeeds, every step passed validation. -/
theorem validateSteps_ok_forall (vault : Vault) (steps : List Step)
    (h : validateSteps vault steps = .ok ()) :
    ∀ st ∈ steps, validateStep vault st = .ok () := by
  induction steps with
  | nil => intro st hst; cases hst
  | cons s rest ih =>
    intro st hst
    rw [validateSteps] at h
    rcases hs : validateStep vault s with e | u <;> rw [hs] at h
    · cases h
    · rcases List.mem_cons.mp hst with rfl | hmem
      · cases u; exact hs
      · exact ih h st hmem

/-- A successfully parsed definition went through step validation. -/
theorem parse_ok_validateSteps (text : String) (vault : Vault) (d : FlowDefinition)
    (h : parseSimpleFlowDefinition text vault = .ok d) :
    validateSteps vault d.steps = .ok () := by
  unfold parseSimpleFlowDefinition at h
  split at h
  · cases h
  · split at h
    · cases h
    · split at h
      · cases h
      · split at h
        · cases h
        · split at h
          · cases h
          · rename_i u heq_v
            split at h
            · cases h
            · split at h
              · cases h
              · cases h
                cases u
                exact heq_v

/-- C7: at parse time, a transform step with both prompt sources set
(truthy) is rejected with the "both" error, one with neither is rejected
with the "either" error, and consequently every transform step of a
successfully parsed definition carries exactly one truthy prompt source
— no such step ever reaches execution. -/
theorem transform_prompt_validation_c7 :
    (∀ (vault : Vault) (st : Step), Step.type st = "transform" →
      truthy (getKey st "prompt") = true → truthy (getKey st "promptFile") = true →
      validateStep vault st = .error "Transform step cannot have both prompt and promptFile.") ∧
    (∀ (vault : Vault) (st : Step), Step.type st = "transform" →
      truthy (getKey st "prompt") = false → truthy (getKey st "promptFile") = false →
      validateStep vault st = .error "Transform step must have either prompt or promptFile.") ∧
    (∀ (text : String) (vault : Vault) (d : FlowDefinition),
      parseSimpleFlowDefinition text vault = .ok d →
      ∀ st ∈ d.steps, Step.type st = "transform" →
      (truthy (getKey st "prompt") = true ∧ truthy (getKey st "promptFile") = false) ∨
      (truthy (getKey st "prompt") = false ∧ truthy (getKey st "promptFile") = true)) := by
  refine ⟨?_, ?_, ?_⟩
  · intro vault st ht hp hpf
    rw [validateStep, if_pos ht]
    simp [hp, hpf]
  · intro vault st ht hp hpf
    rw [validateStep, if_pos ht]
    simp [hp, hpf]
  · intro text vault d hparse st hmem ht
    have hv := validateSteps_ok_forall vault d.steps
      (parse_ok_validateSteps text vault d hparse) st hmem
    rw [validateStep, if_pos ht] at hv
    rcases hp : truthy (getKey st "prompt") with _ | _ <;>
      rcases hpf : truthy (getKey st "promptFile") with _ | _ <;>
        rw [hp, hpf] at hv
    · simp at hv
    · exact Or.inr ⟨rfl, rfl⟩
    · exact Or.inl ⟨rfl, rfl⟩
    · simp at hv

/-- Witness for C7 at concrete inputs. -/
theorem transform_prompt_validation_c7_witness :
    validateStep ⟨[], []⟩ [("type", "transform"), ("prompt", "a"), ("promptFile", "b")]
      = .error "Transform step cannot have both prompt and promptFile." ∧
    validateStep ⟨[], []⟩ [("type", "transform")]
      = .error "Transform step must have either prompt or promptFile." ∧
    ((truthy (getKey [("type", "transform"), ("prompt", "Hi")] "prompt") = true ∧
      truthy (getKey [("type", "transform"), ("prompt", "Hi")] "promptFile") = false) ∨
     (truthy (getKey [("type", "transform"), ("prompt", "Hi")] "prompt") = false ∧
      truthy (getKey [("type", "transform"), ("prompt", "Hi")] "promptFile") = true)) :=
  ⟨transform_prompt_validation_c7.1 ⟨[], []⟩ _ rfl (by decide) (by decide),
   transform_prompt_validation_c7.2.1 ⟨[], []⟩ _ rfl (by decide) (by decide),
   transform_prompt_validation_c7.2.2
     "autoflow\nname: A\ndescription: B\nsteps:\ntype: transform\n- prompt: Hi\ntype: write\n- targetFile: o.md"
     ⟨[], []⟩
     ⟨"A", "B", [[("type", "transform"), ("prompt", "Hi")],
        [("type", "write"), ("targetFile", "o.md")]], none, none⟩
     rfl
     [("type", "transform"), ("prompt", "Hi")] (by simp) rfl⟩

/-- A path-preserving in-place update keeps `find?`-by-path pointing at the
updated record. -/
theorem find?_map_pathUpdate (files : List VFile) (p : String) (upd : VFile → VFile)
    (hupd : ∀ f, (upd f).path = f.path) (f0 : VFile)
    (h : files.find? (fun f => f.path == p) = some f0) :
    (files.map (fun f => if f.path == p then upd f else f)).find?
      (fun f => f.path == p) = some (upd f0) := by
  induction files with
  | nil => cases h
  | cons f fs ih =>
    rcases hb : (f.path == p) with _ | _
    · rw [List.find?_cons_of_neg _ (by simp [hb])] at h
      rw [List.map_cons, hb]
      simp only [Bool.false_eq_true, if_false]
      rw [List.find?_cons_of_neg _ (by simp [hb])]
      exact ih h
    · rw [@List.find?_cons_of_pos VFile (fun f => f.path == p) f fs hb] at h
      cases h
      rw [List.map_cons, hb]
      simp only [if_true]
      exact List.find?_cons_of_pos _ (by rw [hupd]; exact hb)

/-- `lastIndexOf` returns an index inside the string. -/
theorem lastSlashIndexAux_lt (l : List Char) (i0 : Nat) (acc : Option Nat)
    (hacc : ∀ j, acc = some j → j < i0) :
    ∀ j, lastSlashIndexAux i0 acc l = some j → j < i0 + l.length := by
  induction l generalizing i0 acc with
  | nil =>
    intro j hj
    have := hacc j hj
    simpa using this
  | cons c cs ih =>
    intro j hj
    have step : ∀ j', (if c = '/' then some i0 else acc) = some j' → j' < i0 + 1 := by
      intro j' hj'
      split at hj'
      · cases hj'
        omega
      · exact Nat.lt_of_lt_of_le (hacc j' hj') (Nat.le_succ i0)
    have := ih (i0 + 1) _ step j hj
    simp only [List.length_cons]
    omega

/-- A non-empty parent directory path is strictly shorter than the path
itself. -/
theorem jsDirname_ne_self (s : String) (h : jsDirname s ≠ "") : jsDirname s ≠ s := by
  unfold jsDirname at *
  rcases hls : lastSlashIndexAux 0 none s.data with _ | i
  · rw [hls] at h
    exact absurd rfl h
  · have hlt : i < s.data.length := by
      have := lastSlashIndexAux_lt s.data 0 none (by intro j hj; cases hj) i hls
      simpa using this
    intro he
    have hdata : (s.data.take i) = s.data := congrArg String.data he
    have := congrArg List.length hdata
    rw [List.length_take] at this
    omega

/-- A found file witnesses the existence test. -/
theorem any_of_find?_eq_some (files : List VFile) (p : String) (f0 : VFile)
    (hf : files.find? (fun f => f.path == p) = some f0) :
    files.any (fun f => f.path == p) = true :=
  List.any_eq_true.mpr ⟨f0, List.mem_of_find?_eq_some hf,
    @List.find?_some VFile (fun f => f.path == p) f0 files hf⟩

/-- Appending through the adapter to an existing file extends its
content. -/
theorem adapterAppend_getFileContent (w : Vault) (mt : Nat) (t s : String) (f0 : VFile)
    (hf : w.files.find? (fun f => f.path == t) = some f0) :
    (w.adapterAppend mt t s).getFileContent t = some (f0.content ++ s) := by
  rw [Vault.adapterAppend, if_pos (any_of_find?_eq_some w.files t f0 hf), Vault.getFileContent]
  rw [find?_map_pathUpdate w.files t
    (fun f => { f with content := f.content ++ s, mtime := mt }) (fun f => rfl) f0 hf]
  rfl

/-- Creating a fresh file stores exactly the given content. -/
theorem createFile_getFileContent (w : Vault) (mt : Nat) (t s : String)
    (hnone : w.files.find? (fun f => f.path == t) = none) :
    (w.createFile mt t s).getFileContent t = some s := by
  rw [Vault.getFileContent]
  rw [show (w.createFile mt t s).files = w.files ++ [(⟨t, mt, s⟩ : VFile)] from rfl]
  rw [List.find?_append, hnone]
  simp [List.find?]

/-- A present file resolves as a file. -/
theorem getAbstract_of_any (w : Vault) (p : String)
    (h : w.files.any (fun f => f.path == p) = true) :
    w.getAbstractFileByPath p = some .file := by
  rw [Vault.getAbstractFileByPath, if_pos h]

/-- An unresolvable path is neither a file nor a folder. -/
theorem getAbstract_none_parts (w : Vault) (p : String)
    (h : w.getAbstractFileByPath p = none) :
    w.files.any (fun f => f.path == p) = false ∧ w.folders.any (fun d => d == p) = false := by
  rw [Vault.getAbstractFileByPath] at h
  split at h
  · cases h
  · split at h
    · cases h
    · constructor
      · rename_i h1 h2
        cases hb : w.files.any (fun f => f.path == p)
        · rfl
        · exact absurd hb h1
      · rename_i h1 h2
        cases hb : w.folders.any (fun d => d == p)
        · rfl
        · exact absurd hb h2

/-- C5: a write step with an unset or empty `transformResult` is a no-op
(not an error); with a truthy result and an existing resolved target, the
step appends the output preceded by two newlines, so the prior content is
a prefix of the new content; with a non-existent target it creates the
document with exactly the output. -/
theorem executeWriteStep_append_create_c5 :
    (∀ (vault : Vault) (mt : Nat) (step : Step) (ctx : Context) (today : LocalDate),
      ctx.transformResult = none ∨ ctx.transformResult = some "" →
      executeWriteStep vault mt step ctx today = .ok vault) ∧
    (∀ (vault : Vault) (mt : Nat) (step : Step) (ctx : Context) (today : LocalDate)
        (c tf prior : String),
      ctx.transformResult = some c → c ≠ "" → getKey step "targetFile" = some tf →
      vault.getFileContent (resolveTargetFile tf today) = some prior →
      ∃ v1, executeWriteStep vault mt step ctx today = .ok v1 ∧
        v1.getFileContent (resolveTargetFile tf today) = some (prior ++ ("\n\n" ++ c)) ∧
        prior.data <+: (prior ++ ("\n\n" ++ c)).data) ∧
    (∀ (vault : Vault) (mt : Nat) (step : Step) (ctx : Context) (today : LocalDate)
        (c tf : String),
      ctx.transformResult = some c → c ≠ "" → getKey step "targetFile" = some tf →
      vault.getAbstractFileByPath (resolveTargetFile tf today) = none →
      ∃ v1, executeWriteStep vault mt step ctx today = .ok v1 ∧
        v1.getFileContent (resolveTargetFile tf today) = some c) := by
  refine ⟨?_, ?_, ?_⟩
  · rintro vault mt step ctx today (h | h) <;> (rw [executeWriteStep, h]; try rfl)
  · intro vault mt step ctx today c tf prior hctx hc htf hprior
    obtain ⟨f0, hf0, hf0c⟩ := Option.map_eq_some'.mp hprior
    rw [executeWriteStep, hctx]
    dsimp only
    rw [if_neg hc, htf]
    dsimp only
    set t := resolveTargetFile tf today with ht
    set dp := jsDirname t with hdp
    have hgo : ∀ w : Vault, w.files = vault.files →
        ((match w.getAbstractFileByPath t with
          | some _ => Except.ok (w.adapterAppend mt t ("\n\n" ++ c))
          | none => Except.ok (w.createFile mt t c)) : Except Unit Vault)
          = .ok (w.adapterAppend mt t ("\n\n" ++ c)) ∧
        (w.adapterAppend mt t ("\n\n" ++ c)).getFileContent t = some (prior ++ ("\n\n" ++ c)) := by
      intro w hw
      have hf0w : w.files.find? (fun f => f.path == t) = some f0 := by rw [hw]; exact hf0
      constructor
      · rw [getAbstract_of_any w t (any_of_find?_eq_some w.files t f0 hf0w)]
      · rw [adapterAppend_getFileContent w mt t ("\n\n" ++ c) f0 hf0w, hf0c]
    by_cases hdir : dp ≠ "" ∧ vault.getAbstractFileByPath dp = none
    · rw [if_pos hdir]
      obtain ⟨h1, h2⟩ := hgo (vault.createFolder dp) rfl
      exact ⟨_, h1, h2, List.prefix_append _ _⟩
    · rw [if_neg hdir]
      obtain ⟨h1, h2⟩ := hgo vault rfl
      exact ⟨_, h1, h2, List.prefix_append _ _⟩
  · intro vault mt step ctx today c tf hctx hc htf habs
    obtain ⟨hfany, hdany⟩ := getAbstract_none_parts _ _ habs
    have hfind : vault.files.find? (fun f => f.path == (resolveTargetFile tf today)) = none :=
      List.find?_eq_none.mpr (fun x hx => (List.any_eq_false.mp hfany) x hx)
    rw [executeWriteStep, hctx]
    dsimp only
    rw [if_neg hc, htf]
    dsimp only
    set t := resolveTargetFile tf today with ht
    set dp := jsDirname t with hdp
    by_cases hdir : dp ≠ "" ∧ vault.getAbstractFileByPath dp = none
    · rw [if_pos hdir]
      have habs2 : (vault.createFolder dp).getAbstractFileByPath t = none := by
        rw [Vault.getAbstractFileByPath]
        rw [show (vault.createFolder dp).files = vault.files from rfl, hfany]
        simp only [Bool.false_eq_true, if_false]
        have hne : dp ≠ t := jsDirname_ne_self t hdir.1
        rw [show (vault.createFolder dp).folders = vault.folders ++ [dp] from rfl]
        rw [List.any_append, hdany]
        simp [hne]
      rw [habs2]
      exact ⟨_, rfl, createFile_getFileContent _ mt t c hfind⟩
    · rw [if_neg hdir]
      rw [habs]
      exact ⟨_, rfl, createFile_getFileContent _ mt t c hfind⟩

/-- Witness for C5 at concrete inputs. -/
theorem executeWriteStep_append_create_c5_witness :
    (executeWriteStep ⟨[], []⟩ 0 [] ⟨none, none, none⟩ ⟨2025, 10, 11⟩ = .ok ⟨[], []⟩) ∧
    (∃ v1, executeWriteStep ⟨[⟨"out.md", 5, "old"⟩], []⟩ 7
        [("type", "write"), ("targetFile", "out.md")] ⟨none, none, some "new"⟩ ⟨2025, 10, 11⟩
        = .ok v1 ∧
      v1.getFileContent (resolveTargetFile "out.md" ⟨2025, 10, 11⟩)
        = some ("old" ++ ("\n\n" ++ "new")) ∧
      "old".data <+: ("old" ++ ("\n\n" ++ "new")).data) ∧
    (∃ v1, executeWriteStep ⟨[], []⟩ 7
        [("type", "write"), ("targetFile", "out.md")] ⟨none, none, some "new"⟩ ⟨2025, 10, 11⟩
        = .ok v1 ∧
      v1.getFileContent (resolveTargetFile "out.md" ⟨2025, 10, 11⟩) = some "new") :=
  ⟨executeWriteStep_append_create_c5.1 ⟨[], []⟩ 0 [] ⟨none, none, none⟩ ⟨2025, 10, 11⟩
      (Or.inl rfl),
   executeWriteStep_append_create_c5.2.1 ⟨[⟨"out.md", 5, "old"⟩], []⟩ 7
      [("type", "write"), ("targetFile", "out.md")] ⟨none, none, some "new"⟩ ⟨2025, 10, 11⟩
      "new" "out.md" "old" rfl (by decide) rfl (by decide),
   executeWriteStep_append_create_c5.2.2 ⟨[], []⟩ 7
      [("type", "write"), ("targetFile", "out.md")] ⟨none, none, some "new"⟩ ⟨2025, 10, 11⟩
      "new" "out.md" rfl (by decide) rfl (by decide)⟩

/-- The per-candidate loop body only ever emits embedding calls. -/
theorem processFile_events_embed (emb : String → List ℚ) (index : EmbeddingIndex) (f : VFile) :
    ∀ ev ∈ (processFile emb index f).2.2, ∃ txt, ev = .embedCall txt := by
  intro ev hev
  rw [processFile] at hev
  split at hev
  · split at hev
    · cases hev
    · rcases List.mem_singleton.mp hev with rfl
      exact ⟨f.content, rfl⟩
  · rcases List.mem_singleton.mp hev with rfl
    exact ⟨f.content, rfl⟩

/-- The whole candidate loop only ever emits embedding calls. -/
theorem searchLoop_events_embed (emb : String → List ℚ) (sqrt : ℚ → ℚ)
    (qe : List ℚ) (files : List VFile) (index : EmbeddingIndex) :
    ∀ ev ∈ (searchLoop emb sqrt qe files index).2.2, ∃ txt, ev = .embedCall txt := by
  induction files generalizing index with
  | nil => intro ev hev; cases hev
  | cons f fs ih =>
    intro ev hev
    rw [searchLoop] at hev
    rcases List.mem_append.mp hev with h | h
    · exact processFile_events_embed emb index f ev h
    · exact ih _ ev h

/-- The candidate loop never flushes the cache. -/
theorem searchLoop_no_flush (emb : String → List ℚ) (sqrt : ℚ → ℚ)
    (qe : List ℚ) (files : List VFile) (index : EmbeddingIndex) :
    SearchEvent.flush ∉ (searchLoop emb sqrt qe files index).2.2 := by
  intro hmem
  obtain ⟨txt, htxt⟩ := searchLoop_events_embed emb sqrt qe files index _ hmem
  cases htxt

/-- C2: on a cache hit (stored `mtime` equals the document's current
`mtime`) the cached vector is reused with no embedding call and no cache
write; on a miss exactly one embedding call is made on the document's
content and the entry is overwritten with the new vector and current
`mtime`.  A search step with a query emits exactly one flush event, last
in the trace — after the whole per-document pass, never per document. -/
theorem embedding_cache_reuse_single_flush_c2 :
    (∀ (emb : String → List ℚ) (index : EmbeddingIndex) (f : VFile) (e : IndexEntry),
      lookupIndex index f.path = some e → e.mtime = f.mtime →
      processFile emb index f = (e.embedding, index, [])) ∧
    (∀ (emb : String → List ℚ) (index : EmbeddingIndex) (f : VFile),
      (∀ e, lookupIndex index f.path = some e → e.mtime ≠ f.mtime) →
      processFile emb index f
        = (emb f.content, setIndex index f.path ⟨emb f.content, f.mtime⟩,
           [SearchEvent.embedCall f.content])) ∧
    (∀ (emb : String → List ℚ) (sqrt : ℚ → ℚ) (mdFiles : List VFile)
        (index : EmbeddingIndex) (step : Step),
      truthy (getKey step "query") = true →
      (executeSearchStep emb sqrt mdFiles index step).events
        = SearchEvent.embedCall ((getKey step "query").getD "")
          :: ((searchLoop emb sqrt (emb ((getKey step "query").getD ""))
              (mdFiles.filter (fun f =>
                ((getKey step "sourceFolder").getD "undefined").data.isPrefixOf f.path.data))
              index).2.2
          ++ [SearchEvent.flush]) ∧
      SearchEvent.flush ∉ (searchLoop emb sqrt (emb ((getKey step "query").getD ""))
              (mdFiles.filter (fun f =>
                ((getKey step "sourceFolder").getD "undefined").data.isPrefixOf f.path.data))
              index).2.2 ∧
      (executeSearchStep emb sqrt mdFiles index step).events.count SearchEvent.flush = 1 ∧
      (executeSearchStep emb sqrt mdFiles index step).events.getLast?
        = some SearchEvent.flush) := by
  refine ⟨?_, ?_, ?_⟩
  · intro emb index f e he hmt
    rw [processFile, he]
    simp [hmt]
  · intro emb index f hmiss
    rw [processFile]
    rcases he : lookupIndex index f.path with _ | e
    · rfl
    · simp only [if_neg (hmiss e he)]
  · intro emb sqrt mdFiles index step hq
    have hev : (executeSearchStep emb sqrt mdFiles index step).events
        = SearchEvent.embedCall ((getKey step "query").getD "")
          :: ((searchLoop emb sqrt (emb ((getKey step "query").getD ""))
              (mdFiles.filter (fun f =>
                ((getKey step "sourceFolder").getD "undefined").data.isPrefixOf f.path.data))
              index).2.2
          ++ [SearchEvent.flush]) := by
      rw [executeSearchStep]
      rw [hq]
      rfl
    refine ⟨hev, searchLoop_no_flush _ _ _ _ _, ?_, ?_⟩
    · rw [hev]
      rw [List.count_cons, List.count_append]
      rw [List.count_eq_zero.mpr (searchLoop_no_flush _ _ _ _ _)]
      rfl
    · rw [hev]
      rw [show SearchEvent.embedCall ((getKey step "query").getD "")
          :: ((searchLoop emb sqrt (emb ((getKey step "query").getD ""))
              (mdFiles.filter (fun f =>
                ((getKey step "sourceFolder").getD "undefined").data.isPrefixOf f.path.data))
              index).2.2 ++ [SearchEvent.flush])
        = (SearchEvent.embedCall ((getKey step "query").getD "")
          :: (searchLoop emb sqrt (emb ((getKey step "query").getD ""))
              (mdFiles.filter (fun f =>
                ((getKey step "sourceFolder").getD "undefined").data.isPrefixOf f.path.data))
              index).2.2) ++ [SearchEvent.flush] from by simp]
      exact List.getLast?_concat _

/-- Witness for C2 at concrete inputs. -/
theorem embedding_cache_reuse_single_flush_c2_witness :
    processFile (fun _ => ([] : List ℚ)) [("a.md", ⟨[], 1⟩)] ⟨"a.md", 1, "x"⟩
      = (([] : List ℚ), [("a.md", ⟨[], 1⟩)], []) ∧
    processFile (fun _ => ([] : List ℚ)) [] ⟨"a.md", 1, "x"⟩
      = (([] : List ℚ), setIndex [] "a.md" ⟨[], 1⟩, [SearchEvent.embedCall "x"]) ∧
    (executeSearchStep (fun _ => ([] : List ℚ)) (fun _ => 0) [⟨"a.md", 1, "x"⟩] []
        [("type", "search"), ("sourceFolder", ""), ("query", "q")]).events.count
      SearchEvent.flush = 1 ∧
    (executeSearchStep (fun _ => ([] : List ℚ)) (fun _ => 0) [⟨"a.md", 1, "x"⟩] []
        [("type", "search"), ("sourceFolder", ""), ("query", "q")]).events.getLast?
      = some SearchEvent.flush :=
  ⟨embedding_cache_reuse_single_flush_c2.1 (fun _ => []) [("a.md", ⟨[], 1⟩)]
      ⟨"a.md", 1, "x"⟩ ⟨[], 1⟩ rfl rfl,
   embedding_cache_reuse_single_flush_c2.2.1 (fun _ => []) [] ⟨"a.md", 1, "x"⟩
      (fun e he => nomatch he),
   (embedding_cache_reuse_single_flush_c2.2.2 (fun _ => []) (fun _ => 0) [⟨"a.md", 1, "x"⟩] []
      [("type", "search"), ("sourceFolder", ""), ("query", "q")] (by decide)).2.2.1,
   (embedding_cache_reuse_single_flush_c2.2.2 (fun _ => []) (fun _ => 0) [⟨"a.md", 1, "x"⟩] []
      [("type", "search"), ("sourceFolder", ""), ("query", "q")] (by decide)).2.2.2⟩

/-- The stable-sort comparator order is transitive. -/
theorem descBySimilarity_trans (a b c : Nat × (VFile × ℚ))
    (hab : descBySimilarity a b = true) (hbc : descBySimilarity b c = true) :
    descBySimilarity a c = true := by
  simp only [descBySimilarity, decide_eq_true_eq] at *
  rcases hab with h1 | ⟨h1, h1i⟩ <;> rcases hbc with h2 | ⟨h2, h2i⟩
  · exact Or.inl (lt_trans h2 h1)
  · exact Or.inl (h2 ▸ h1)
  · exact Or.inl (h1 ▸ h2)
  · exact Or.inr ⟨h1.trans h2, le_trans h1i h2i⟩

/-- The stable-sort comparator order is total. -/
theorem descBySimilarity_total (a b : Nat × (VFile × ℚ)) :
    (descBySimilarity a b || descBySimilarity b a) = true := by
  simp only [descBySimilarity, Bool.or_eq_true, decide_eq_true_eq]
  rcases lt_trichotomy a.2.2 b.2.2 with h | h | h
  · exact Or.inr (Or.inl h)
  · rcases Nat.le_total a.1 b.1 with hi | hi
    · exact Or.inl (Or.inr ⟨h, hi⟩)
    · exact Or.inr (Or.inr ⟨h.symm, hi⟩)
  · exact Or.inl (Or.inl h)

/-- C1: without a truthy query, the search step stores all candidates'
contents unranked in store-enumeration order and touches neither the cache
nor the providers.  With a query it stores at most 10 contents: there is a
position-tagged rearrangement `ranked` of the similarity pairs computed by
the candidate loop, strictly sorted by descending similarity with
equal-similarity ties broken by ascending original enumeration position,
whose first 10 entries give `searchResults` and `searchResultsFiles` in
ranked order. -/
theorem executeSearchStep_ranking_c1 :
    (∀ (emb : String → List ℚ) (sqrt : ℚ → ℚ) (mdFiles : List VFile)
        (index : EmbeddingIndex) (step : Step),
      truthy (getKey step "query") = false →
      executeSearchStep emb sqrt mdFiles index step
        = { searchResults := (mdFiles.filter (fun f =>
              ((getKey step "sourceFolder").getD "undefined").data.isPrefixOf f.path.data)).map
                (fun f => f.content)
            searchResultsFiles := mdFiles.filter (fun f =>
              ((getKey step "sourceFolder").getD "undefined").data.isPrefixOf f.path.data)
            index := index
            events := [] }) ∧
    (∀ (emb : String → List ℚ) (sqrt : ℚ → ℚ) (mdFiles : List VFile)
        (index : EmbeddingIndex) (step : Step),
      truthy (getKey step "query") = true →
      (executeSearchStep emb sqrt mdFiles index step).searchResults.length ≤ 10 ∧
      ∃ ranked : List (Nat × (VFile × ℚ)),
        ranked.Perm ((searchLoop emb sqrt (emb ((getKey step "query").getD ""))
            (mdFiles.filter (fun f =>
              ((getKey step "sourceFolder").getD "undefined").data.isPrefixOf f.path.data))
            index).1.enum) ∧
        List.Pairwise (fun a b : Nat × (VFile × ℚ) =>
          b.2.2 < a.2.2 ∨ (a.2.2 = b.2.2 ∧ a.1 < b.1)) ranked ∧
        (executeSearchStep emb sqrt mdFiles index step).searchResults
          = (ranked.take 10).map (fun x => x.2.1.content) ∧
        (executeSearchStep emb sqrt mdFiles index step).searchResultsFiles
          = (ranked.take 10).map (fun x => x.2.1)) := by
  constructor
  · intro emb sqrt mdFiles index step hq
    rw [executeSearchStep, hq]
    rfl
  · intro emb sqrt mdFiles index step hq
    set q := (getKey step "query").getD "" with hqdef
    set files := mdFiles.filter (fun f =>
      ((getKey step "sourceFolder").getD "undefined").data.isPrefixOf f.path.data) with hfdef
    set pairs := (searchLoop emb sqrt (emb q) files index).1 with hpdef
    have hstep : executeSearchStep emb sqrt mdFiles index step
        = { searchResults := (((sortBySimilarityDesc pairs).take 10).map Prod.fst).map
              (fun f => f.content)
            searchResultsFiles := ((sortBySimilarityDesc pairs).take 10).map Prod.fst
            index := (searchLoop emb sqrt (emb q) files index).2.1
            events := SearchEvent.embedCall q
              :: ((searchLoop emb sqrt (emb q) files index).2.2 ++ [SearchEvent.flush]) } := by
      rw [executeSearchStep, hq]
      rfl
    set ranked := pairs.enum.mergeSort descBySimilarity with hrdef
    have hsort : sortBySimilarityDesc pairs = ranked.map Prod.snd := rfl
    have hperm : ranked.Perm pairs.enum := List.mergeSort_perm pairs.enum descBySimilarity
    have hsorted : List.Pairwise (fun a b => descBySimilarity a b = true) ranked :=
      List.sorted_mergeSort descBySimilarity_trans descBySimilarity_total pairs.enum
    have hnodup : (ranked.map Prod.fst).Nodup := by
      have h1 : (pairs.enum.map Prod.fst).Nodup := by
        rw [List.enum_map_fst]
        exact List.nodup_range pairs.length
      exact ((hperm.map Prod.fst).nodup_iff).mpr h1
    have hne : List.Pairwise (fun a b : Nat × (VFile × ℚ) => a.1 ≠ b.1) ranked :=
      List.pairwise_map.mp hnodup
    have hstrict : List.Pairwise (fun a b : Nat × (VFile × ℚ) =>
        b.2.2 < a.2.2 ∨ (a.2.2 = b.2.2 ∧ a.1 < b.1)) ranked := by
      refine (hsorted.and hne).imp ?_
      rintro a b ⟨hle, hab⟩
      rcases (by simpa [descBySimilarity] using hle :
          b.2.2 < a.2.2 ∨ (a.2.2 = b.2.2 ∧ a.1 ≤ b.1)) with h | ⟨h, hi⟩
      · exact Or.inl h
      · exact Or.inr ⟨h, lt_of_le_of_ne hi hab⟩
    have hres : (executeSearchStep emb sqrt mdFiles index step).searchResults
        = (ranked.take 10).map (fun x => x.2.1.content) := by
      rw [hstep]
      show (((sortBySimilarityDesc pairs).take 10).map Prod.fst).map (fun f => f.content)
        = (ranked.take 10).map (fun x => x.2.1.content)
      rw [hsort, ← List.map_take, List.map_map, List.map_map]
      rfl
    have hresf : (executeSearchStep emb sqrt mdFiles index step).searchResultsFiles
        = (ranked.take 10).map (fun x => x.2.1) := by
      rw [hstep]
      show ((sortBySimilarityDesc pairs).take 10).map Prod.fst
        = (ranked.take 10).map (fun x => x.2.1)
      rw [hsort, ← List.map_take, List.map_map]
      rfl
    refine ⟨?_, ranked, hperm, hstrict, hres, hresf⟩
    rw [hres, List.length_map]
    exact List.length_take_le 10 ranked

/-- Witness for C1 at concrete inputs. -/
theorem executeSearchStep_ranking_c1_witness :
    executeSearchStep (fun _ => ([] : List ℚ)) (fun _ => 0) [⟨"a.md", 1, "x"⟩] []
        [("type", "search"), ("sourceFolder", "")]
      = ⟨["x"], [⟨"a.md", 1, "x"⟩], [], []⟩ ∧
    ((executeSearchStep (fun _ => ([] : List ℚ)) (fun _ => 0) [⟨"a.md", 1, "x"⟩] []
        [("type", "search"), ("sourceFolder", ""), ("query", "q")]).searchResults.length ≤ 10 ∧
      ∃ ranked : List (Nat × (VFile × ℚ)),
        ranked.Perm ((searchLoop (fun _ => ([] : List ℚ)) (fun _ => 0) []
            [⟨"a.md", 1, "x"⟩] []).1.enum) ∧
        List.Pairwise (fun a b : Nat × (VFile × ℚ) =>
          b.2.2 < a.2.2 ∨ (a.2.2 = b.2.2 ∧ a.1 < b.1)) ranked ∧
        (executeSearchStep (fun _ => ([] : List ℚ)) (fun _ => 0) [⟨"a.md", 1, "x"⟩] []
            [("type", "search"), ("sourceFolder", ""), ("query", "q")]).searchResults
          = (ranked.take 10).map (fun x => x.2.1.content) ∧
        (executeSearchStep (fun _ => ([] : List ℚ)) (fun _ => 0) [⟨"a.md", 1, "x"⟩] []
            [("type", "search"), ("sourceFolder", ""), ("query", "q")]).searchResultsFiles
          = (ranked.take 10).map (fun x => x.2.1)) :=
  ⟨executeSearchStep_ranking_c1.1 (fun _ => []) (fun _ => 0) [⟨"a.md", 1, "x"⟩] []
      [("type", "search"), ("sourceFolder", "")] (by decide),
   executeSearchStep_ranking_c1.2 (fun _ => []) (fun _ => 0) [⟨"a.md", 1, "x"⟩] []
      [("type", "search"), ("sourceFolder", ""), ("query", "q")] (by decide)⟩

/-- A first-match line replacement rewrites exactly the first matching
line. -/
theorem replaceFirstLine_spec (p : String → Bool) (g : String → List String)
    (pre : List String) (l : String) (post : List String)
    (hpre : ∀ l' ∈ pre, p l' = false) (hl : p l = true) :
    replaceFirstLine p g (pre ++ l :: post) = pre ++ (g l ++ post) := by
  induction pre with
  | nil =>
    show replaceFirstLine p g (l :: post) = g l ++ post
    rw [replaceFirstLine, if_pos hl]
  | cons x xs ih =>
    show replaceFirstLine p g (x :: (xs ++ l :: post)) = x :: (xs ++ (g l ++ post))
    rw [replaceFirstLine]
    rw [if_neg (by rw [hpre x (List.mem_cons_self x xs)]; exact Bool.false_ne_true)]
    rw [ih (fun l' h' => hpre l' (List.mem_cons_of_mem x h'))]

/-- When a `lastRun:` line exists, the rewrite replaces the first one. -/
theorem updateLastRunContent_replace (content newDate : String)
    (pre : List String) (l : String) (post : List String)
    (hlines : (content.data.splitOn '\n').map String.mk = pre ++ l :: post)
    (hpre : ∀ l' ∈ pre, isLastRunLine l' = false)
    (hl : isLastRunLine l = true) :
    updateLastRunContent content newDate
      = jsJoin "\n" (pre ++ (("lastRun: " ++ newDate) :: post)) := by
  have hany : ((content.data.splitOn '\n').map String.mk).any isLastRunLine = true := by
    rw [hlines]
    exact List.any_eq_true.mpr ⟨l, by simp, hl⟩
  rw [updateLastRunContent]
  simp only [hany, if_true, hlines]
  have hany2 : (pre ++ l :: post).any isLastRunLine = true :=
    List.any_eq_true.mpr ⟨l, by simp, hl⟩
  rw [if_pos hany2]
  rw [replaceFirstLine_spec isLastRunLine _ pre l post hpre hl]
  rw [List.singleton_append]

/-- When no `lastRun:` line exists, the marker is inserted immediately
before the first `steps:` line. -/
theorem updateLastRunContent_insert (content newDate : String)
    (pre : List String) (l : String) (post : List String)
    (hlines : (content.data.splitOn '\n').map String.mk = pre ++ l :: post)
    (hnolast : ∀ l' ∈ (content.data.splitOn '\n').map String.mk, isLastRunLine l' = false)
    (hpre : ∀ l' ∈ pre, isStepsMarkerLine l' = false)
    (hl : isStepsMarkerLine l = true) :
    updateLastRunContent content newDate
      = jsJoin "\n" (pre ++ (("lastRun: " ++ newDate) :: l :: post)) := by
  have hany : ((content.data.splitOn '\n').map String.mk).any isLastRunLine = false :=
    List.any_eq_false.mpr (by intro x hx; rw [hnolast x hx]; exact Bool.false_ne_true)
  have hany2 : ((content.data.splitOn '\n').map String.mk).any isStepsMarkerLine = true := by
    rw [hlines]
    exact List.any_eq_true.mpr ⟨l, by simp, hl⟩
  rw [updateLastRunContent]
  simp only [hany, Bool.false_eq_true, if_false, hany2, if_true, hlines]
  have hany1 : (pre ++ l :: post).any isLastRunLine = false := by
    rw [← hlines]
    exact hany
  have hany3 : (pre ++ l :: post).any isStepsMarkerLine = true :=
    List.any_eq_true.mpr ⟨l, by simp, hl⟩
  rw [if_neg (by rw [hany1]; exact Bool.false_ne_true), if_pos hany3]
  rw [replaceFirstLine_spec isStepsMarkerLine _ pre l post hpre hl]
  rfl

/-- C6: on startup, a registered flow whose parsed `lastRun` equals
today's local date is skipped (state unchanged, nothing runs); one whose
`lastRun` differs and whose `autorun` is `'daily'` or `true` runs (its
path joins the run trace); after a fully successful autorun run the flow
document is rewritten with `lastRun` set to today — by replacing the
first existing `lastRun:` line, or inserting the marker immediately
before the first `steps:` line when absent. -/
theorem autorun_skip_run_update_c6 :
    (∀ (env : Env) (s : StartupState) (path content : String) (d : FlowDefinition),
      s.vault.getFileContent path = some content →
      parseSimpleFlowDefinition content s.vault = .ok d →
      d.lastRun = some (getLocalYYYYMMDD env.today) →
      processAutorunFlow env s path = s) ∧
    (∀ (env : Env) (s : StartupState) (path content : String) (d : FlowDefinition),
      s.vault.getFileContent path = some content →
      parseSimpleFlowDefinition content s.vault = .ok d →
      d.lastRun ≠ some (getLocalYYYYMMDD env.today) →
      (d.autorun = some (.str "daily") ∨ d.autorun = some .boolTrue) →
      processAutorunFlow env s path
        = { vault := (runSteps env s.vault s.index s.autorunFlows d (some path) true).state.vault
            index := (runSteps env s.vault s.index s.autorunFlows d (some path) true).state.index
            autorunFlows := (runSteps env s.vault s.index s.autorunFlows d (some path) true).autorunFlows
            ran := s.ran ++ [path] }) ∧
    (∀ (env : Env) (vault : Vault) (index : EmbeddingIndex) (autorunFlows : List String)
        (d : FlowDefinition) (p : String),
      (runStepsList env ⟨⟨none, none, none⟩, vault, index, []⟩ d.steps).2 = true →
      (runSteps env vault index autorunFlows d (some p) true).state.vault
        = updateLastRunInFile
            (runStepsList env ⟨⟨none, none, none⟩, vault, index, []⟩ d.steps).1.vault
            env.writeMtime p (getLocalYYYYMMDD env.today)) ∧
    (∀ (content newDate : String) (pre : List String) (l : String) (post : List String),
      (content.data.splitOn '\n').map String.mk = pre ++ l :: post →
      (∀ l' ∈ pre, isLastRunLine l' = false) → isLastRunLine l = true →
      updateLastRunContent content newDate
        = jsJoin "\n" (pre ++ (("lastRun: " ++ newDate) :: post))) ∧
    (∀ (content newDate : String) (pre : List String) (l : String) (post : List String),
      (content.data.splitOn '\n').map String.mk = pre ++ l :: post →
      (∀ l' ∈ (content.data.splitOn '\n').map String.mk, isLastRunLine l' = false) →
      (∀ l' ∈ pre, isStepsMarkerLine l' = false) → isStepsMarkerLine l = true →
      updateLastRunContent content newDate
        = jsJoin "\n" (pre ++ (("lastRun: " ++ newDate) :: l :: post))) := by
  refine ⟨?_, ?_, ?_, updateLastRunContent_replace, updateLastRunContent_insert⟩
  · intro env s path content d hc hp hlast
    rw [processAutorunFlow, hc]
    show (match parseSimpleFlowDefinition content s.vault with
      | .error _ => s
      | .ok definition => _) = s
    rw [hp]
    simp [hlast]
  · intro env s path content d hc hp hlast haut
    rw [processAutorunFlow, hc]
    show (match parseSimpleFlowDefinition content s.vault with
      | .error _ => s
      | .ok definition => _) = _
    rw [hp]
    have hb : (decide (d.autorun = some (.str "daily"))
        || decide (d.autorun = some .boolTrue)) = true := by
      rcases haut with h | h <;> simp [h]
    simp only [if_neg hlast, hb, if_true]
  · intro env vault index autorunFlows d p hsucc
    rw [runSteps]
    simp only [hsucc, if_true]

/-- Witness for C6 at concrete inputs. -/
theorem autorun_skip_run_update_c6_witness :
    processAutorunFlow ⟨fun _ => [], fun _ => 0, fun _ => .ok none, 9, ⟨2025, 10, 11⟩⟩
        ⟨⟨[⟨"flow.md", 1, "autoflow\nname: A\ndescription: B\nautorun: true\nlastRun: 2025-10-11\nsteps:\ntype: write\n- targetFile: o.md"⟩], []⟩, [], ["flow.md"], []⟩
        "flow.md"
      = ⟨⟨[⟨"flow.md", 1, "autoflow\nname: A\ndescription: B\nautorun: true\nlastRun: 2025-10-11\nsteps:\ntype: write\n- targetFile: o.md"⟩], []⟩, [], ["flow.md"], []⟩ ∧
    processAutorunFlow ⟨fun _ => [], fun _ => 0, fun _ => .ok none, 9, ⟨2025, 10, 11⟩⟩
        ⟨⟨[⟨"flow.md", 1, "autoflow\nname: A\ndescription: B\nautorun: true\nlastRun: 2020-01-01\nsteps:\ntype: write\n- targetFile: o.md"⟩], []⟩, [], ["flow.md"], []⟩
        "flow.md"
      = { vault := (runSteps ⟨fun _ => [], fun _ => 0, fun _ => .ok none, 9, ⟨2025, 10, 11⟩⟩
            ⟨[⟨"flow.md", 1, "autoflow\nname: A\ndescription: B\nautorun: true\nlastRun: 2020-01-01\nsteps:\ntype: write\n- targetFile: o.md"⟩], []⟩ [] ["flow.md"]
            ⟨"A", "B", [[("type", "write"), ("targetFile", "o.md")]], some .boolTrue,
              some "2020-01-01"⟩ (some "flow.md") true).state.vault
          index := (runSteps ⟨fun _ => [], fun _ => 0, fun _ => .ok none, 9, ⟨2025, 10, 11⟩⟩
            ⟨[⟨"flow.md", 1, "autoflow\nname: A\ndescription: B\nautorun: true\nlastRun: 2020-01-01\nsteps:\ntype: write\n- targetFile: o.md"⟩], []⟩ [] ["flow.md"]
            ⟨"A", "B", [[("type", "write"), ("targetFile", "o.md")]], some .boolTrue,
              some "2020-01-01"⟩ (some "flow.md") true).state.index
          autorunFlows := (runSteps ⟨fun _ => [], fun _ => 0, fun _ => .ok none, 9, ⟨2025, 10, 11⟩⟩
            ⟨[⟨"flow.md", 1, "autoflow\nname: A\ndescription: B\nautorun: true\nlastRun: 2020-01-01\nsteps:\ntype: write\n- targetFile: o.md"⟩], []⟩ [] ["flow.md"]
            ⟨"A", "B", [[("type", "write"), ("targetFile", "o.md")]], some .boolTrue,
              some "2020-01-01"⟩ (some "flow.md") true).autorunFlows
          ran := [] ++ ["flow.md"] } ∧
    (runSteps ⟨fun _ => [], fun _ => 0, fun _ => .ok none, 9, ⟨2025, 10, 11⟩⟩
        ⟨[⟨"flow.md", 1, "c"⟩], []⟩ [] ["flow.md"]
        ⟨"A", "B", [[("type", "write"), ("targetFile", "o.md")]], some .boolTrue,
          some "2020-01-01"⟩ (some "flow.md") true).state.vault
      = updateLastRunInFile
          (runStepsList ⟨fun _ => [], fun _ => 0, fun _ => .ok none, 9, ⟨2025, 10, 11⟩⟩
            ⟨⟨none, none, none⟩, ⟨[⟨"flow.md", 1, "c"⟩], []⟩, [], []⟩
            [[("type", "write"), ("targetFile", "o.md")]]).1.vault
          9 "flow.md" (getLocalYYYYMMDD ⟨2025, 10, 11⟩) ∧
    updateLastRunContent "a\nlastRun: x\nsteps: y" "2025-10-11"
      = jsJoin "\n" (["a"] ++ (("lastRun: " ++ "2025-10-11") :: ["steps: y"])) ∧
    updateLastRunContent "a\nsteps: y" "2025-10-11"
      = jsJoin "\n" (["a"] ++ (("lastRun: " ++ "2025-10-11") :: "steps: y" :: [])) := by
  refine ⟨?_, ?_, ?_, ?_, ?_⟩
  · exact autorun_skip_run_update_c6.1 _ _ "flow.md" _
      ⟨"A", "B", [[("type", "write"), ("targetFile", "o.md")]], some .boolTrue,
        some "2025-10-11"⟩ rfl rfl rfl
  · exact autorun_skip_run_update_c6.2.1 _ _ "flow.md" _
      ⟨"A", "B", [[("type", "write"), ("targetFile", "o.md")]], some .boolTrue,
        some "2020-01-01"⟩ rfl rfl (by decide) (Or.inr rfl)
  · exact autorun_skip_run_update_c6.2.2.1 _ _ _ _ _ _ rfl
  · exact autorun_skip_run_update_c6.2.2.2.1 "a\nlastRun: x\nsteps: y" "2025-10-11"
      ["a"] "lastRun: x" ["steps: y"] (by decide) (by decide) (by decide)
  · exact autorun_skip_run_update_c6.2.2.2.2 "a\nsteps: y" "2025-10-11"
      ["a"] "steps: y" [] (by decide) (by decide) (by decide) (by decide)
